import Mathlib

/-!
Verification of the Intcode virtual machine (`2019/intcode/intcode.go`).

The Go code is shallowly embedded: machine integers become `Int` (Go's `%`
and `/` on `int` are truncated division, so they become `Int.tmod` and
`Int.tdiv`); slice indexing that can panic becomes `Option`-returning
access; Go `error` values become the inductive `GoErr`; the caller-supplied
input/output hooks become optional Lean functions carried in the `VM`
record (the input hook may depend on how many times it has been called, the
output hook on the call index and the value; delivered output values are
recorded in a trace field `outs`).  A Go panic is a distinguished outcome
constructor, not an error value.
-/

/-- Parameter addressing mode (`pmode` in the source: position / immediate /
relative). -/
inductive Pmode
  | position
  | immediate
  | relative
deriving DecidableEq, Repr

/-- Opcode descriptor (`op` in the source): display name, numeric code and
parameter count (`pc`).  The effect function `x` of the source is embedded
separately as `execOp`, dispatching on `code`. -/
structure Op where
  name : String
  code : Int
  pc : Nat
deriving DecidableEq, Repr

/-- A decoded instruction: the opcode descriptor plus one addressing mode per
parameter. -/
structure Instruction where
  op : Op
  pmodes : List Pmode
deriving DecidableEq, Repr

/-- Go `error` values that can arise in the VM, plus a constructor for
arbitrary errors returned by the caller-supplied hooks. -/
inductive GoErr
  | unknownOpcode (opcode : Int) (word : Int)
  | invalidParamMode (word : Int)
  | missingInput
  | missingOutput
  | hookErr (msg : String)
deriving DecidableEq, Repr

/-- The opcode table `ops` of the source, as a lookup function. -/
def ops (c : Int) : Option Op :=
  if c = 1 then some { name := "add", code := 1, pc := 3 }
  else if c = 2 then some { name := "mult", code := 2, pc := 3 }
  else if c = 3 then some { name := "input", code := 3, pc := 1 }
  else if c = 4 then some { name := "output", code := 4, pc := 1 }
  else if c = 5 then some { name := "jump-if-true", code := 5, pc := 2 }
  else if c = 6 then some { name := "jump-if-false", code := 6, pc := 2 }
  else if c = 7 then some { name := "less-than", code := 7, pc := 3 }
  else if c = 8 then some { name := "equals", code := 8, pc := 3 }
  else if c = 9 then some { name := "adjust-relative-base", code := 9, pc := 1 }
  else if c = 99 then some { name := "halt", code := 99, pc := 0 }
  else none

/-- Mode-digit loop of `parseInstruction`: reads `n` decimal digits of `rest`
least-significant first, `0` position, `1` immediate, `2` relative, and fails
with `invalidParamMode` (carrying the current quotient, as the Go error
message does) on any other digit. -/
def parseModes (rest : Int) : Nat → Except GoErr (List Pmode)
  | 0 => .ok []
  | Nat.succ n =>
    let d := rest.tmod 10
    if d = 0 then (parseModes (rest.tdiv 10) n).map (fun ms => Pmode.position :: ms)
    else if d = 1 then (parseModes (rest.tdiv 10) n).map (fun ms => Pmode.immediate :: ms)
    else if d = 2 then (parseModes (rest.tdiv 10) n).map (fun ms => Pmode.relative :: ms)
    else .error (GoErr.invalidParamMode rest)

/-- Instruction decoder `parseInstruction`: opcode is the raw word `tmod 100`
(Go's truncated `%`), looked up in `ops`; the remaining quotient provides one
mode digit per parameter. -/
def parseInstruction (inp : Int) : Except GoErr Instruction :=
  let opcode := inp.tmod 100
  match ops opcode with
  | none => .error (GoErr.unknownOpcode opcode inp)
  | some o => (parseModes (inp.tdiv 100) o.pc).map fun ms => { op := o, pmodes := ms }

/-- The zero value of Go's `instruction` struct: code 0, no parameters.  A
fresh VM starts with this as its current instruction, which disables the
initial automatic advance in `stepInstruction`. -/
def zeroInstruction : Instruction :=
  { op := { name := "", code := 0, pc := 0 }, pmodes := [] }

/-- The VM state.  `Input`/`Output` model the caller-supplied hooks
(`nil`-able function fields in Go); `inCalls` counts input-hook invocations
and `outs` records every value delivered to the output hook, so that stateful
hooks and the observable output stream are expressible. -/
structure VM where
  program : List Int
  mem : List Int
  pos : Int
  ins : Instruction
  Input : Option (Nat → Except GoErr Int)
  Output : Option (Nat → Int → Except GoErr Unit)
  jumped : Bool
  relbase : Int
  inCalls : Nat
  outs : List Int

/-- Bounds-checked read of Go slice indexing `mem[i]` with an `int` index:
`none` models the out-of-range panic. -/
def idx? (mem : List Int) (i : Int) : Option Int :=
  if 0 ≤ i then mem.get? i.toNat else none

/-- Bounds-checked write `mem[i] = x`: `none` models the out-of-range
panic. -/
def setIdx? (mem : List Int) (i : Int) (x : Int) : Option (List Int) :=
  if 0 ≤ i ∧ i.toNat < mem.length then some (mem.set i.toNat x) else none

/-- Raw operand read `v.val(i)`: the word at `pos + i`. -/
def VM.val (v : VM) (i : Nat) : Option Int :=
  idx? v.mem (v.pos + i)

/-- Mode-resolved operand read `v.mval(i)`: position mode dereferences the
raw word, immediate mode returns it, relative mode dereferences
`relbase + raw word`. -/
def VM.mval (v : VM) (i : Nat) : Option Int :=
  match v.ins.pmodes.get? i with
  | some Pmode.position => (v.val i).bind fun w => idx? v.mem w
  | some Pmode.immediate => v.val i
  | some Pmode.relative => (v.val i).bind fun w => idx? v.mem (v.relbase + w)
  | none => none

/-- Write `v.set(i, x)`: the target address is the raw word, plus `relbase`
exactly when the parameter's mode is relative. -/
def VM.set (v : VM) (i : Nat) (x : Int) : Option VM :=
  match v.val i, v.ins.pmodes.get? i with
  | some w, some m =>
    let j := if m = Pmode.relative then v.relbase + w else w
    (setIdx? v.mem j x).map fun mem2 => { v with mem := mem2 }
  | _, _ => none

/-- Jump `v.jump(p)`: set the position and mark the jumped flag. -/
def VM.jump (v : VM) (p : Int) : VM :=
  { v with pos := p, jumped := true }

/-- Result of executing one opcode effect (`op.x` in the source):
continue, halt sentinel, Go error (with the state at that point), or
panic. -/
inductive ExecRes
  | cont (v : VM)
  | halted (v : VM)
  | failed (e : GoErr) (v : VM)
  | panicked

/-- Effect of opcode 1 (`add`). -/
def execAdd (v : VM) : ExecRes :=
  match v.mval 0, v.mval 1 with
  | some a, some b =>
    match v.set 2 (a + b) with
    | some v2 => .cont v2
    | none => .panicked
  | _, _ => .panicked

/-- Effect of opcode 2 (`mult`). -/
def execMul (v : VM) : ExecRes :=
  match v.mval 0, v.mval 1 with
  | some a, some b =>
    match v.set 2 (a * b) with
    | some v2 => .cont v2
    | none => .panicked
  | _, _ => .panicked

/-- Effect of opcode 3 (`input`): fails if no input hook; otherwise invokes
the hook and stores the value through parameter 0. -/
def execInput (v : VM) : ExecRes :=
  match v.Input with
  | none => .failed GoErr.missingInput v
  | some f =>
    match f v.inCalls with
    | .error e => .failed e { v with inCalls := v.inCalls + 1 }
    | .ok x =>
      match VM.set { v with inCalls := v.inCalls + 1 } 0 x with
      | some v2 => .cont v2
      | none => .panicked

/-- Effect of opcode 4 (`output`): fails if no output hook; otherwise
delivers the resolved operand to the hook (recorded in `outs`) and propagates
the hook's error, if any. -/
def execOutput (v : VM) : ExecRes :=
  match v.Output with
  | none => .failed GoErr.missingOutput v
  | some f =>
    match v.mval 0 with
    | none => .panicked
    | some x =>
      let v2 := { v with outs := v.outs ++ [x] }
      match f v.outs.length x with
      | .ok _ => .cont v2
      | .error e => .failed e v2

/-- Effect of opcode 5 (`jump-if-true`): the source jumps when
`v.mval(0) > 0`. -/
def execJT (v : VM) : ExecRes :=
  match v.mval 0 with
  | none => .panicked
  | some a =>
    if 0 < a then
      match v.mval 1 with
      | none => .panicked
      | some t => .cont (v.jump t)
    else .cont v

/-- Effect of opcode 6 (`jump-if-false`): jumps when `v.mval(0) == 0`. -/
def execJF (v : VM) : ExecRes :=
  match v.mval 0 with
  | none => .panicked
  | some a =>
    if a = 0 then
      match v.mval 1 with
      | none => .panicked
      | some t => .cont (v.jump t)
    else .cont v

/-- Effect of opcode 7 (`less-than`). -/
def execLT (v : VM) : ExecRes :=
  match v.mval 0, v.mval 1 with
  | some a, some b =>
    match v.set 2 (if a < b then 1 else 0) with
    | some v2 => .cont v2
    | none => .panicked
  | _, _ => .panicked

/-- Effect of opcode 8 (`equals`). -/
def execEq (v : VM) : ExecRes :=
  match v.mval 0, v.mval 1 with
  | some a, some b =>
    match v.set 2 (if a = b then 1 else 0) with
    | some v2 => .cont v2
    | none => .panicked
  | _, _ => .panicked

/-- Effect of opcode 9 (`adjust-relative-base`). -/
def execRel (v : VM) : ExecRes :=
  match v.mval 0 with
  | none => .panicked
  | some a => .cont { v with relbase := v.relbase + a }

/-- Dispatch of the current instruction's effect `v.ins.op.x(v)`, keyed by
the opcode's numeric code exactly as the `ops` table associates codes with
effects.  Opcode 99 returns the halt sentinel. -/
def execOp (v : VM) : ExecRes :=
  let c := v.ins.op.code
  if c = 1 then execAdd v
  else if c = 2 then execMul v
  else if c = 3 then execInput v
  else if c = 4 then execOutput v
  else if c = 5 then execJT v
  else if c = 6 then execJF v
  else if c = 7 then execLT v
  else if c = 8 then execEq v
  else if c = 9 then execRel v
  else if c = 99 then ExecRes.halted v
  else ExecRes.panicked

/-- Result of `stepInstruction`: new state, decode error (with the state as
mutated so far), or panic. -/
inductive StepRes
  | ok (v : VM)
  | failed (e : GoErr) (v : VM)
  | panicked

/-- Fetch/decode step `v.stepInstruction()`: first advance the position by
the previous instruction's parameter count unless it was the zero
instruction or it jumped, clear the jumped flag, then decode the word at the
(possibly advanced) position and move one past it. -/
def VM.stepInstruction (v : VM) : StepRes :=
  let v1 := if 0 < v.ins.op.code ∧ v.jumped = false
    then { v with pos := v.pos + (v.ins.op.pc : Int) } else v
  let v2 := { v1 with jumped := false }
  match idx? v2.mem v2.pos with
  | none => .panicked
  | some w =>
    match parseInstruction w with
    | .error e => .failed e v2
    | .ok i => .ok { v2 with ins := i, pos := v2.pos + 1 }

/-- Result of `Run`: clean halt, first error (with the state at that point),
panic, or fuel exhaustion (Go's loop has no fuel; the embedding adds it to
stay total). -/
inductive RunRes
  | ok (v : VM)
  | err (e : GoErr) (v : VM)
  | panicked
  | outOfFuel (v : VM)

/-- The run loop `v.Run()`: while `pos ≤ len(mem)`, fetch/decode then execute
the effect; the halt sentinel becomes a clean return, any other error is
returned as-is, and falling out of the loop is the explicit Go `panic`. -/
def run : Nat → VM → RunRes
  | 0, v => .outOfFuel v
  | Nat.succ n, v =>
    if v.pos ≤ (v.mem.length : Int) then
      match v.stepInstruction with
      | .panicked => .panicked
      | .failed e v1 => .err e v1
      | .ok v1 =>
        match execOp v1 with
        | .panicked => .panicked
        | .failed e v2 => .err e v2
        | .halted v2 => .ok v2
        | .cont v2 => run n v2
    else .panicked

/-- Go's built-in `copy(dst, src)` for int slices: overwrite the first
`min (len dst) (len src)` elements of `dst` with those of `src`. -/
def copySlice (dst src : List Int) : List Int :=
  src.take dst.length ++ dst.drop (min dst.length src.length)

/-- Constructor `NewVM`: copy the program into the caller's memory buffer and
start at position 0 with the zero instruction and relative base 0. -/
def NewVM (program mem : List Int)
    (input : Option (Nat → Except GoErr Int))
    (output : Option (Nat → Int → Except GoErr Unit)) : VM :=
  { program := program, mem := copySlice mem program, pos := 0,
    ins := zeroInstruction, Input := input, Output := output,
    jumped := false, relbase := 0, inCalls := 0, outs := [] }


/-! ### Helper facts about the embedding -/


lemma ops_code {c : Int} {o : Op} (h : ops c = some o) : o.code = c ∧ 0 < c := by
  unfold ops at h
  repeat' split at h
  all_goals (try (injection h with h; subst h; subst_vars; exact ⟨rfl, by decide⟩))
  exact Option.noConfusion h

lemma ops_none_iff (c : Int) :
    ops c = none ↔ c ∉ ([1, 2, 3, 4, 5, 6, 7, 8, 9, 99] : List Int) := by
  unfold ops
  repeat' split
  all_goals simp_all [List.mem_cons]

lemma set_fields {v : VM} {i : Nat} {x : Int} {v2 : VM} (h : VM.set v i x = some v2) :
    v2.ins = v.ins ∧ v2.pos = v.pos ∧ v2.jumped = v.jumped ∧ v2.relbase = v.relbase := by
  unfold VM.set at h
  repeat' split at h
  all_goals first
    | exact Option.noConfusion h
    | (simp only [Option.map_eq_some'] at h
       obtain ⟨m2, _, h2⟩ := h
       subst h2
       exact ⟨rfl, rfl, rfl, rfl⟩)


lemma execAdd_facts (v : VM) :
    (∀ v2, execAdd v ≠ ExecRes.halted v2)
  ∧ (∀ v2, execAdd v = ExecRes.cont v2 → v2.ins = v.ins) := by
  unfold execAdd
  constructor <;> intro v2 h <;> repeat' split at h
  all_goals first
    | exact ExecRes.noConfusion h
    | (injection h with h; subst h
       rename_i hs
       exact (set_fields hs).1)


lemma execMul_facts (v : VM) :
    (∀ v2, execMul v ≠ ExecRes.halted v2)
  ∧ (∀ v2, execMul v = ExecRes.cont v2 → v2.ins = v.ins) := by
  unfold execMul
  constructor <;> intro v2 h <;> repeat' split at h
  all_goals first
    | exact ExecRes.noConfusion h
    | (injection h with h; subst h
       rename_i hs
       exact (set_fields hs).1)


lemma execInput_facts (v : VM) :
    (∀ v2, execInput v ≠ ExecRes.halted v2)
  ∧ (∀ v2, execInput v = ExecRes.cont v2 → v2.ins = v.ins) := by
  unfold execInput
  constructor <;> intro v2 h <;> repeat' split at h
  all_goals first
    | exact ExecRes.noConfusion h
    | (injection h with h; subst h
       rename_i hs
       exact (set_fields hs).1)


lemma execLT_facts (v : VM) :
    (∀ v2, execLT v ≠ ExecRes.halted v2)
  ∧ (∀ v2, execLT v = ExecRes.cont v2 → v2.ins = v.ins) := by
  unfold execLT
  constructor <;> intro v2 h <;> repeat' split at h
  all_goals first
    | exact ExecRes.noConfusion h
    | (injection h with h; subst h
       rename_i hs
       exact (set_fields hs).1)


lemma execEq_facts (v : VM) :
    (∀ v2, execEq v ≠ ExecRes.halted v2)
  ∧ (∀ v2, execEq v = ExecRes.cont v2 → v2.ins = v.ins) := by
  unfold execEq
  constructor <;> intro v2 h <;> repeat' split at h
  all_goals first
    | exact ExecRes.noConfusion h
    | (injection h with h; subst h
       rename_i hs
       exact (set_fields hs).1)


lemma execOutput_facts (v : VM) :
    (∀ v2, execOutput v ≠ ExecRes.halted v2)
  ∧ (∀ v2, execOutput v = ExecRes.cont v2 → v2.ins = v.ins) := by
  unfold execOutput
  constructor <;> intro v2 h <;> repeat' split at h
  all_goals first
    | exact ExecRes.noConfusion h
    | (injection h with h; subst h; rfl)


lemma execJT_facts (v : VM) :
    (∀ v2, execJT v ≠ ExecRes.halted v2)
  ∧ (∀ v2, execJT v = ExecRes.cont v2 → v2.ins = v.ins) := by
  unfold execJT
  constructor <;> intro v2 h <;> repeat' split at h
  all_goals first
    | exact ExecRes.noConfusion h
    | (injection h with h; subst h; rfl)


lemma execJF_facts (v : VM) :
    (∀ v2, execJF v ≠ ExecRes.halted v2)
  ∧ (∀ v2, execJF v = ExecRes.cont v2 → v2.ins = v.ins) := by
  unfold execJF
  constructor <;> intro v2 h <;> repeat' split at h
  all_goals first
    | exact ExecRes.noConfusion h
    | (injection h with h; subst h; rfl)


lemma execRel_facts (v : VM) :
    (∀ v2, execRel v ≠ ExecRes.halted v2)
  ∧ (∀ v2, execRel v = ExecRes.cont v2 → v2.ins = v.ins) := by
  unfold execRel
  constructor <;> intro v2 h <;> repeat' split at h
  all_goals first
    | exact ExecRes.noConfusion h
    | (injection h with h; subst h; rfl)


lemma exec_halted {v v2 : VM} (h : execOp v = ExecRes.halted v2) :
    v2 = v ∧ v.ins.op.code = 99 := by
  simp only [execOp] at h
  repeat' split at h
  all_goals first
    | exact absurd h ((execAdd_facts v).1 v2)
    | exact absurd h ((execMul_facts v).1 v2)
    | exact absurd h ((execInput_facts v).1 v2)
    | exact absurd h ((execOutput_facts v).1 v2)
    | exact absurd h ((execJT_facts v).1 v2)
    | exact absurd h ((execJF_facts v).1 v2)
    | exact absurd h ((execLT_facts v).1 v2)
    | exact absurd h ((execEq_facts v).1 v2)
    | exact absurd h ((execRel_facts v).1 v2)
    | (injection h with h; subst h; exact ⟨rfl, by assumption⟩)
    | exact ExecRes.noConfusion h

lemma exec_cont_ins {v v2 : VM} (h : execOp v = ExecRes.cont v2) : v2.ins = v.ins := by
  simp only [execOp] at h
  repeat' split at h
  all_goals first
    | exact (execAdd_facts v).2 v2 h
    | exact (execMul_facts v).2 v2 h
    | exact (execInput_facts v).2 v2 h
    | exact (execOutput_facts v).2 v2 h
    | exact (execJT_facts v).2 v2 h
    | exact (execJF_facts v).2 v2 h
    | exact (execLT_facts v).2 v2 h
    | exact (execEq_facts v).2 v2 h
    | exact (execRel_facts v).2 v2 h
    | exact ExecRes.noConfusion h

/-- A convenience constructor for concrete machine states used in examples:
no hooks, no prior I/O activity. -/
def mkVM (mem : List Int) (pos : Int) (i : Instruction) (relbase : Int) : VM :=
  { program := [], mem := mem, pos := pos, ins := i, Input := none,
    Output := none, jumped := false, relbase := relbase, inCalls := 0, outs := [] }

/-! ### Claim C9: write resolution ignores immediate mode -/

/-- C9: for every write through `set`, a parameter whose mode is not relative
(immediate as much as position) resolves the target address to the raw word
itself: `set` under immediate mode behaves exactly as under position mode and
writes to memory at the raw word's value. -/
theorem C9_set_immediate_as_position :
    ∀ (v : VM) (i : Nat) (x : Int) (m : Pmode),
      v.ins.pmodes.get? i = some m → m ≠ Pmode.relative →
      VM.set v i x = (v.val i).bind fun w =>
        (setIdx? v.mem w x).map fun mem2 => { v with mem := mem2 } := by
  intro v i x m hm hnr
  unfold VM.set
  rw [hm]
  cases hv : v.val i with
  | none => rfl
  | some w => simp [hnr]

/-- C9 witness instruction: an input instruction whose parameter 0 is
immediate mode. -/
def insC9 : Instruction :=
  { op := { name := "input", code := 3, pc := 1 }, pmodes := [Pmode.immediate] }

/-- C9 witness: a concrete state whose parameter 0 is immediate mode. -/
def vC9 : VM :=
  mkVM [1, 0] 0 insC9 0

/-- C9 applied at a concrete immediate-mode write. -/
theorem C9_witness :
    vC9.ins.pmodes.get? 0 = some Pmode.immediate ∧
    VM.set vC9 0 7 = (vC9.val 0).bind fun w =>
      (setIdx? vC9.mem w 7).map fun mem2 => { vC9 with mem := mem2 } :=
  ⟨rfl, C9_set_immediate_as_position vC9 0 7 Pmode.immediate rfl (by decide)⟩

/-! ### Claim C10: NewVM truncation behaviour -/

/-- C10: `NewVM` copies exactly the first `min (len mem) (len program)`
program words into the caller's buffer (silent truncation when the buffer is
shorter than the program) and cells at or beyond the program's length keep
whatever the caller's buffer held; the constructor is total, so it can never
report an error. -/
theorem C10_NewVM_truncates (p m : List Int) (inp : Option (Nat → Except GoErr Int))
    (out : Option (Nat → Int → Except GoErr Unit)) :
    (NewVM p m inp out).mem.length = m.length
  ∧ (∀ k, k < min m.length p.length → (NewVM p m inp out).mem.get? k = p.get? k)
  ∧ (∀ k, p.length ≤ k → (NewVM p m inp out).mem.get? k = m.get? k) := by
  refine ⟨?_, ?_, ?_⟩ <;> simp only [NewVM, copySlice]
  · rw [List.length_append, List.length_take, List.length_drop]
    omega
  · intro k hk
    rw [List.get?_eq_getElem?, List.get?_eq_getElem?,
      List.getElem?_append_left (by rw [List.length_take]; omega),
      List.getElem?_take_of_lt (by omega)]
  · intro k hk
    by_cases hmp : p.length ≤ m.length
    · rw [List.get?_eq_getElem?, List.get?_eq_getElem?,
        List.getElem?_append_right (by rw [List.length_take]; omega),
        List.getElem?_drop]
      congr 1
      rw [List.length_take]
      omega
    · rw [List.get?_eq_getElem?, List.get?_eq_getElem?,
        List.getElem?_eq_none
          (by rw [List.length_append, List.length_take, List.length_drop]; omega),
        List.getElem?_eq_none (by omega)]

/-- C10 applied concretely: the third program word survives into a buffer of
length 2 only as far as the buffer reaches, and a short program leaves the
buffer's tail untouched. -/
theorem C10_witness :
    (NewVM [9, 9, 9] [4, 5] none none).mem.get? 1 = ([9, 9, 9] : List Int).get? 1 ∧
    (NewVM [7] [4, 5] none none).mem.get? 1 = ([4, 5] : List Int).get? 1 :=
  ⟨(C10_NewVM_truncates [9, 9, 9] [4, 5] none none).2.1 1 (by decide),
   (C10_NewVM_truncates [7] [4, 5] none none).2.2 1 (by decide)⟩

/-! ### Claim C6: decoding 1399 and 50 -/

/-- The decoded halt instruction: raw words whose low two digits are 99
decode to this, with no mode digits read since halt takes no parameters. -/
def haltIns : Instruction :=
  { op := { name := "halt", code := 99, pc := 0 }, pmodes := [] }

/-- C6 counterexample: decoding the raw word 1399 does not yield
`UnknownOpcode`; it succeeds as a halt instruction, because 1399 tmod 100 is
99, which is in the opcode table, and halt consumes no mode digits. -/
theorem C6_counterexample : parseInstruction 1399 = Except.ok haltIns := rfl

/-- C6 amended: 1399 decodes successfully as halt (leftover high digits are
never examined because halt has zero parameters), and a run encountering it
halts cleanly without memory mutation; a word such as 50, whose low two
digits match no table entry, yields `UnknownOpcode` carrying opcode 50 and
word 50, and the run aborts with memory unchanged. -/
theorem C6_amended :
    parseInstruction 1399 = Except.ok haltIns
  ∧ parseInstruction 50 = Except.error (GoErr.unknownOpcode 50 50)
  ∧ run 3 (NewVM [50] [0] none none) =
      RunRes.err (GoErr.unknownOpcode 50 50) (NewVM [50] [0] none none)
  ∧ (NewVM [50] [0] none none).mem = [50]
  ∧ (match run 3 (NewVM [1399] [0] none none) with
      | RunRes.ok vf => vf.mem = [1399]
      | _ => False) := by
  exact ⟨rfl, rfl, rfl, rfl, rfl⟩

/-! ### Claim C1: jump-if-true tests strict positivity, not nonzero -/

/-- The jump-if-true opcode descriptor. -/
def op5 : Op := { name := "jump-if-true", code := 5, pc := 2 }

/-- C1 failing state: a decoded `1105` (jump-if-true, both operands
immediate) whose first operand is the nonzero value -1; position is one past
the opcode word. -/
def vC1 : VM :=
  mkVM [1105, -1, 7] 1 { op := op5, pmodes := [Pmode.immediate, Pmode.immediate] } 0

/-- C1 at the failing input: the first operand resolves to -1, which is
nonzero, yet the jump-if-true effect leaves the machine entirely unchanged
(no jump, no jumped flag) because the source tests `mval(0) > 0` rather than
nonzero; and a whole program whose jump-if-true sees operand -1 falls
through to the halt instead of jumping to the output at address 4. -/
theorem C1_jump_if_true_negative_operand :
    vC1.ins.op.code = 5
  ∧ vC1.mval 0 = some (-1)
  ∧ vC1.mval 1 = some 7
  ∧ execOp vC1 = ExecRes.cont vC1
  ∧ execOp vC1 ≠ ExecRes.cont (vC1.jump 7)
  ∧ (match run 10 (NewVM [1105, -1, 4, 99, 104, 1, 99] [0, 0, 0, 0, 0, 0, 0]
        none (some fun _ _ => Except.ok ())) with
      | RunRes.ok vf => vf.outs = [] ∧ vf.pos = 4
      | _ => False) := by
  refine ⟨rfl, rfl, rfl, rfl, ?_, ?_⟩
  · intro h
    have h2 : ExecRes.cont vC1 = ExecRes.cont (vC1.jump 7) :=
      (rfl : execOp vC1 = ExecRes.cont vC1).symm.trans h
    injection h2 with h3
    exact absurd (congrArg VM.pos h3) (by decide)
  · exact ⟨rfl, rfl⟩

/-! ### Claim C3: operand read resolution -/

/-- C3 scenario program prefix: adjust the relative base by 2000 (immediate),
then output the relative-mode operand with raw word 5, then halt. -/
def relProg : List Int := [109, 2000, 204, 5, 99]

/-- C3 scenario memory image: the program followed by 2001 scratch cells with
the value 42 planted at absolute address 2005 (= 5 + 2000). -/
def relMemLoaded : List Int := relProg ++ ((List.replicate 2001 0).set 2000 42)

/-- Decoded `109`: adjust-relative-base with an immediate parameter. -/
def insAdj : Instruction :=
  { op := { name := "adjust-relative-base", code := 9, pc := 1 },
    pmodes := [Pmode.immediate] }

/-- State about to execute the decoded `109 2000`: position one past the
opcode word, relative base still 0. -/
def vAdj : VM := mkVM relMemLoaded 1 insAdj 0

/-- Decoded `204`: output with a relative-mode parameter. -/
def insAcc : Instruction :=
  { op := { name := "output", code := 4, pc := 1 }, pmodes := [Pmode.relative] }

/-- State about to execute the decoded `204 5` after the base adjustment:
position one past the opcode word, relative base 2000. -/
def vAcc : VM := mkVM relMemLoaded 3 insAcc 2000

lemma mval_position (v : VM) (i : Nat) (h : v.ins.pmodes.get? i = some Pmode.position) :
    v.mval i = (v.val i).bind fun w => idx? v.mem w := by
  unfold VM.mval
  rw [h]

lemma mval_immediate (v : VM) (i : Nat) (h : v.ins.pmodes.get? i = some Pmode.immediate) :
    v.mval i = v.val i := by
  unfold VM.mval
  rw [h]

lemma mval_relative (v : VM) (i : Nat) (h : v.ins.pmodes.get? i = some Pmode.relative) :
    v.mval i = (v.val i).bind fun w => idx? v.mem (v.relbase + w) := by
  unfold VM.mval
  rw [h]

lemma idx?_nonneg (mem : List Int) (i : Int) (hi : 0 ≤ i) :
    idx? mem i = mem.get? i.toNat := by
  unfold idx?
  rw [if_pos hi]

/-- C3: `mval` resolves a parameter per its mode — position mode dereferences
memory at the raw word at `position + index`, immediate mode returns the raw
word itself, relative mode dereferences memory at `relative base + raw word`
(position here being one past the opcode word, as recorded at decode time);
in particular, executing adjust-relative-base with operand 2000 from base 0
sets the base to 2000, after which a relative access whose raw word is 5
resolves to absolute address 2005, reading the 42 planted there. -/
theorem C3_mval_resolution :
    (∀ (v : VM) (i : Nat), v.ins.pmodes.get? i = some Pmode.position →
        v.mval i = (v.val i).bind fun w => idx? v.mem w)
  ∧ (∀ (v : VM) (i : Nat), v.ins.pmodes.get? i = some Pmode.immediate →
        v.mval i = v.val i)
  ∧ (∀ (v : VM) (i : Nat), v.ins.pmodes.get? i = some Pmode.relative →
        v.mval i = (v.val i).bind fun w => idx? v.mem (v.relbase + w))
  ∧ execOp vAdj = ExecRes.cont { vAdj with relbase := 2000 }
  ∧ vAcc.val 0 = some 5
  ∧ vAcc.mval 0 = idx? vAcc.mem (2000 + 5)
  ∧ idx? vAcc.mem 2005 = some 42 := by
  refine ⟨mval_position, mval_immediate, mval_relative, rfl, rfl, ?_, ?_⟩
  · rw [mval_relative vAcc 0 rfl, show vAcc.val 0 = some 5 from rfl,
      Option.some_bind, show vAcc.relbase = 2000 from rfl]
  · show idx? relMemLoaded 2005 = some 42
    rw [idx?_nonneg _ _ (by decide), List.get?_eq_getElem?]
    show relMemLoaded[(2005 : Nat)]? = some 42
    unfold relMemLoaded
    rw [List.getElem?_append_right (by norm_num [relProg])]
    show ((List.replicate 2001 (0 : Int)).set 2000 42)[(2000 : Nat)]? = some 42
    rw [List.getElem?_set_self (by norm_num)]

/-- C3 witness instruction: output with a position-mode parameter. -/
def insC3 : Instruction :=
  { op := { name := "output", code := 4, pc := 1 }, pmodes := [Pmode.position] }

/-- C3 witness state: raw word 1 at the position, memory cell 1 holding 42. -/
def vC3 : VM :=
  mkVM [1, 42] 0 insC3 0

/-- C3 applied at a concrete position-mode read. -/
theorem C3_witness :
    vC3.ins.pmodes.get? 0 = some Pmode.position
  ∧ vC3.mval 0 = (vC3.val 0).bind fun w => idx? vC3.mem w :=
  ⟨rfl, C3_mval_resolution.1 vC3 0 rfl⟩

/-! ### Claims C5 and C8: run loop contract -/

lemma run_ok_code99 :
    ∀ (fuel : Nat) (v v2 : VM), run fuel v = RunRes.ok v2 → v2.ins.op.code = 99 := by
  intro fuel
  induction fuel with
  | zero =>
    intro v v2 h
    simp only [run] at h
    exact RunRes.noConfusion h
  | succ n ih =>
    intro v v2 h
    simp only [run] at h
    split at h
    · split at h
      · exact RunRes.noConfusion h
      · exact RunRes.noConfusion h
      · split at h
        · exact RunRes.noConfusion h
        · exact RunRes.noConfusion h
        · rename_i vh hexec
          obtain ⟨hv, hc⟩ := exec_halted hexec
          injection h with h2
          rw [← h2, hv]
          exact hc
        · rename_i v2x hexec
          exact ih v2x v2 h
    · exact RunRes.noConfusion h

/-- C5: `run` reaches a clean success exactly by executing opcode 99 (the
state returned by a clean run has the halt instruction current); a decode
failure at a step whose guard holds aborts immediately with that error and
the state as mutated so far; an effect failure (missing hook, hook error)
likewise aborts with the error unmodified and the post-step state retained;
and a halt effect produces the clean success. -/
theorem C5_run_error_contract :
    (∀ (fuel : Nat) (v v2 : VM), run fuel v = RunRes.ok v2 → v2.ins.op.code = 99)
  ∧ (∀ (fuel : Nat) (v : VM) (e : GoErr) (v1 : VM),
        v.pos ≤ (v.mem.length : Int) → v.stepInstruction = StepRes.failed e v1 →
        run (fuel + 1) v = RunRes.err e v1)
  ∧ (∀ (fuel : Nat) (v v1 : VM) (e : GoErr) (v2 : VM),
        v.pos ≤ (v.mem.length : Int) → v.stepInstruction = StepRes.ok v1 →
        execOp v1 = ExecRes.failed e v2 →
        run (fuel + 1) v = RunRes.err e v2)
  ∧ (∀ (fuel : Nat) (v v1 v2 : VM),
        v.pos ≤ (v.mem.length : Int) → v.stepInstruction = StepRes.ok v1 →
        execOp v1 = ExecRes.halted v2 →
        run (fuel + 1) v = RunRes.ok v2) := by
  refine ⟨run_ok_code99, ?_, ?_, ?_⟩
  · intro fuel v e v1 hg hs
    simp only [run]
    rw [if_pos hg]
    simp only [hs]
  · intro fuel v v1 e v2 hg hs he
    simp only [run]
    rw [if_pos hg]
    simp only [hs, he]
  · intro fuel v v1 v2 hg hs he
    simp only [run]
    rw [if_pos hg]
    simp only [hs, he]

/-- A fresh VM about to decode the unknown word 50. -/
def v50 : VM := NewVM [50] [0] none none

/-- A fresh VM about to decode an input instruction with no input hook. -/
def v3 : VM := NewVM [3, 0] [0, 0] none none

/-- The decoded input instruction with one position-mode parameter. -/
def insInput : Instruction :=
  { op := { name := "input", code := 3, pc := 1 }, pmodes := [Pmode.position] }

/-- The state of `v3` after fetch/decode of opcode 3. -/
def v3s : VM :=
  { v3 with ins := insInput, pos := 1 }

/-- A fresh VM about to decode a halt instruction. -/
def v99 : VM := NewVM [99] [0] none none

/-- The state of `v99` after fetch/decode of opcode 99. -/
def v99s : VM := { v99 with ins := haltIns, pos := 1 }

/-- C5 applied concretely: an unknown-opcode decode failure, a missing input
hook, and a clean halt. -/
theorem C5_witness :
    run 1 v50 = RunRes.err (GoErr.unknownOpcode 50 50) v50
  ∧ run 1 v3 = RunRes.err GoErr.missingInput v3s
  ∧ run 1 v99 = RunRes.ok v99s :=
  ⟨C5_run_error_contract.2.1 0 v50 (GoErr.unknownOpcode 50 50) v50 (by decide) rfl,
   C5_run_error_contract.2.2.1 0 v3 v3s GoErr.missingInput v3s (by decide) rfl rfl,
   C5_run_error_contract.2.2.2 0 v99 v99s v99s (by decide) rfl rfl⟩

/-- C8: the loop's outer guard is `position ≤ memory length` — when the
position exceeds the memory length the engine panics (the Go `panic` after
the loop) instead of returning; and a run can only return cleanly by
executing opcode 99, never by silently running past the end. -/
theorem C8_guard_and_panic :
    (∀ (fuel : Nat) (v : VM), (v.mem.length : Int) < v.pos →
        run (fuel + 1) v = RunRes.panicked)
  ∧ (∀ (fuel : Nat) (v v2 : VM), run fuel v = RunRes.ok v2 → v2.ins.op.code = 99) := by
  constructor
  · intro fuel v hg
    simp only [run]
    rw [if_neg (by omega)]
  · exact run_ok_code99

/-- A state whose position already lies past the end of memory. -/
def vPast : VM := mkVM [] 5 zeroInstruction 0

/-- C8 applied concretely: position 5 with empty memory panics. -/
theorem C8_witness : run 1 vPast = RunRes.panicked :=
  C8_guard_and_panic.1 0 vPast (by decide)

/-! ### Claim C2: decoder characterization -/

/-- The mode denoted by one decimal digit, if any: 0 position, 1 immediate,
2 relative. -/
def modeOfDigit (d : Int) : Option Pmode :=
  if d = 0 then some Pmode.position
  else if d = 1 then some Pmode.immediate
  else if d = 2 then some Pmode.relative
  else none

lemma cast_tmod10 (a : Nat) : ((a : Int)).tmod 10 = (((a % 10 : Nat)) : Int) := rfl

lemma cast_tdiv10 (a : Nat) : ((a : Int)).tdiv 10 = (((a / 10 : Nat)) : Int) := rfl

lemma cast_tdiv100 (a : Nat) : ((a : Int)).tdiv 100 = (((a / 100 : Nat)) : Int) := rfl

lemma digit_cast (a k : Nat) :
    (((a : Int)).tdiv ((10 : Int) ^ k)).tmod 10 = (((a / 10 ^ k % 10 : Nat)) : Int) := by
  have hpow : ((10 : Int)) ^ k = (((10 ^ k : Nat)) : Int) := by push_cast; ring
  rw [hpow]
  rfl

lemma parseModes_succ_some (r m : Nat) (md : Pmode)
    (hmd : modeOfDigit (((r % 10 : Nat)) : Int) = some md) :
    parseModes ((r : Int)) (m + 1) =
      (parseModes (((r / 10 : Nat)) : Int) m).map (fun ms => md :: ms) := by
  unfold modeOfDigit at hmd
  simp only [parseModes, cast_tmod10, cast_tdiv10]
  split_ifs at hmd with h0 h1 h2
  · injection hmd with h3
    subst h3
    rw [if_pos h0]
  · injection hmd with h3
    subst h3
    rw [if_neg h0, if_pos h1]
  · injection hmd with h3
    subst h3
    rw [if_neg h0, if_neg h1, if_pos h2]

lemma parseModes_succ_none (r m : Nat)
    (hmd : modeOfDigit (((r % 10 : Nat)) : Int) = none) :
    parseModes ((r : Int)) (m + 1) = Except.error (GoErr.invalidParamMode ((r : Int))) := by
  unfold modeOfDigit at hmd
  simp only [parseModes, cast_tmod10, cast_tdiv10]
  split_ifs at hmd with h0 h1 h2
  rw [if_neg h0, if_neg h1, if_neg h2]

lemma parseModes_no_unknown :
    ∀ (n : Nat) (r : Int) (c w : Int),
      parseModes r n ≠ Except.error (GoErr.unknownOpcode c w) := by
  intro n
  induction n with
  | zero =>
    intro r c w h
    exact Except.noConfusion h
  | succ m ih =>
    intro r c w h
    simp only [parseModes] at h
    split_ifs at h with h0 h1 h2
    case _ =>
      cases hp : parseModes (r.tdiv 10) m with
      | ok ms =>
        rw [hp] at h
        exact Except.noConfusion h
      | error e =>
        rw [hp] at h
        injection h with h2
        exact ih (r.tdiv 10) c w (by rw [hp, h2])
    case _ =>
      cases hp : parseModes (r.tdiv 10) m with
      | ok ms =>
        rw [hp] at h
        exact Except.noConfusion h
      | error e =>
        rw [hp] at h
        injection h with h2
        exact ih (r.tdiv 10) c w (by rw [hp, h2])
    case _ =>
      cases hp : parseModes (r.tdiv 10) m with
      | ok ms =>
        rw [hp] at h
        exact Except.noConfusion h
      | error e =>
        rw [hp] at h
        injection h with h2
        exact ih (r.tdiv 10) c w (by rw [hp, h2])
    case _ =>
      injection h with h2
      exact GoErr.noConfusion h2

lemma parseModes_spec :
    ∀ (n : Nat) (r : Nat),
      ((∀ k, k < n → modeOfDigit (((r / 10 ^ k % 10 : Nat)) : Int) ≠ none) ∧
        ∃ ms, parseModes ((r : Int)) n = Except.ok ms ∧ ms.length = n ∧
          ∀ k, k < n → ms.get? k = modeOfDigit (((r / 10 ^ k % 10 : Nat)) : Int))
    ∨ ((∃ k, k < n ∧ modeOfDigit (((r / 10 ^ k % 10 : Nat)) : Int) = none) ∧
        ∃ w, parseModes ((r : Int)) n = Except.error (GoErr.invalidParamMode w)) := by
  intro n
  induction n with
  | zero =>
    intro r
    left
    exact ⟨fun k hk => absurd hk (by omega), [], rfl, rfl,
      fun k hk => absurd hk (by omega)⟩
  | succ m ih =>
    intro r
    have hzero : r / 10 ^ 0 % 10 = r % 10 := by rw [Nat.pow_zero, Nat.div_one]
    have hshift : ∀ k, r / 10 ^ (k + 1) % 10 = r / 10 / 10 ^ k % 10 := by
      intro k
      rw [Nat.div_div_eq_div_mul, Nat.pow_succ, Nat.mul_comm]
    cases hmd : modeOfDigit (((r % 10 : Nat)) : Int) with
    | none =>
      right
      refine ⟨⟨0, by omega, by rw [hzero]; exact hmd⟩,
        (r : Int), parseModes_succ_none r m hmd⟩
    | some md =>
      have hsucc := parseModes_succ_some r m md hmd
      rcases ih (r / 10) with ⟨hall, ms, hok, hlen, hget⟩ | ⟨⟨k, hk, hbad⟩, w, herr⟩
      · left
        refine ⟨?_, md :: ms, ?_, ?_, ?_⟩
        · intro k hk
          cases k with
          | zero =>
            rw [hzero, hmd]
            exact fun hcon => Option.noConfusion hcon
          | succ k2 =>
            rw [hshift k2]
            exact hall k2 (by omega)
        · rw [hsucc, hok]
          rfl
        · simp [hlen]
        · intro k hk
          cases k with
          | zero =>
            rw [hzero, hmd]
            rfl
          | succ k2 =>
            rw [hshift k2]
            exact hget k2 (by omega)
      · right
        refine ⟨⟨k + 1, by omega, by rw [hshift k]; exact hbad⟩, w, ?_⟩
        rw [hsucc, herr]
        rfl

lemma tmod_pos100 {inp : Int} (h : 0 < inp.tmod 100) : 0 < inp := by
  cases inp with
  | ofNat n =>
    have h2 : (Int.ofNat n).tmod 100 = (((n % 100 : Nat)) : Int) := rfl
    rw [h2] at h
    show (0 : Int) < ((n : Nat) : Int)
    omega
  | negSucc m =>
    exfalso
    have h2 : (Int.negSucc m).tmod 100 = -((((m + 1) % 100 : Nat)) : Int) := rfl
    rw [h2] at h
    omega

lemma parse_some_not_unknown {inp : Int} {o : Op} (hops : ops (inp.tmod 100) = some o) :
    ∀ c w, parseInstruction inp ≠ Except.error (GoErr.unknownOpcode c w) := by
  intro c w h
  simp only [parseInstruction, hops] at h
  cases hp : parseModes (inp.tdiv 100) o.pc with
  | ok ms =>
    rw [hp] at h
    exact Except.noConfusion h
  | error e =>
    rw [hp] at h
    injection h with h2
    exact parseModes_no_unknown o.pc (inp.tdiv 100) c w (by rw [hp, h2])

lemma parse_pos_nat {inp : Int} {o : Op} (hops : ops (inp.tmod 100) = some o) :
    ∃ n : Nat, inp = (n : Int) := by
  obtain ⟨-, hpos⟩ := ops_code hops
  have h2 : 0 < inp := tmod_pos100 hpos
  exact ⟨inp.toNat, (Int.toNat_of_nonneg h2.le).symm⟩

/-- C2: the decoder takes the opcode as the raw word tmod 100 (Go's
truncated `%`) and fails with `UnknownOpcode` exactly when that value is not
one of the ten table entries, reporting that opcode and the raw word;
on success the decoded opcode is the table entry for that value and the mode
list has exactly the opcode's parameter count, its k-th entry given by the
k-th decimal digit (least significant first) of the quotient after removing
the opcode digits, with 0 position, 1 immediate, 2 relative; and the decoder
fails with `InvalidParameterMode` exactly when the opcode is known but some
digit among the first parameter-count digits is not 0, 1 or 2. -/
theorem C2_decoder (inp : Int) :
    ((∃ c w, parseInstruction inp = Except.error (GoErr.unknownOpcode c w)) ↔
        inp.tmod 100 ∉ ([1, 2, 3, 4, 5, 6, 7, 8, 9, 99] : List Int))
  ∧ (∀ c w, parseInstruction inp = Except.error (GoErr.unknownOpcode c w) →
        c = inp.tmod 100 ∧ w = inp)
  ∧ (∀ i, parseInstruction inp = Except.ok i →
        i.op.code = inp.tmod 100
      ∧ ops (inp.tmod 100) = some i.op
      ∧ i.pmodes.length = i.op.pc
      ∧ ∀ k, k < i.op.pc →
          i.pmodes.get? k = modeOfDigit (((inp.tdiv 100).tdiv ((10 : Int) ^ k)).tmod 10))
  ∧ ((∃ w, parseInstruction inp = Except.error (GoErr.invalidParamMode w)) ↔
        ∃ o, ops (inp.tmod 100) = some o ∧
          ∃ k, k < o.pc ∧
            modeOfDigit (((inp.tdiv 100).tdiv ((10 : Int) ^ k)).tmod 10) = none) := by
  constructor
  · constructor
    · rintro ⟨c, w, h⟩
      by_contra hmem
      cases hops : ops (inp.tmod 100) with
      | none => exact absurd hmem ((ops_none_iff _).mp hops)
      | some o => exact parse_some_not_unknown hops c w h
    · intro hmem
      exact ⟨inp.tmod 100, inp,
        by simp only [parseInstruction, (ops_none_iff (inp.tmod 100)).mpr hmem]⟩
  constructor
  · intro c w h
    cases hops : ops (inp.tmod 100) with
    | none =>
      simp only [parseInstruction, hops] at h
      injection h with h2
      injection h2 with hc hw
      exact ⟨hc.symm, hw.symm⟩
    | some o => exact absurd h (parse_some_not_unknown hops c w)
  constructor
  · intro i h
    cases hops : ops (inp.tmod 100) with
    | none =>
      simp only [parseInstruction, hops] at h
      exact Except.noConfusion h
    | some o =>
      obtain ⟨n, rfl⟩ := parse_pos_nat hops
      simp only [parseInstruction, hops] at h
      rw [cast_tdiv100] at h
      rcases parseModes_spec o.pc (n / 100) with ⟨hall, ms, hok, hlen, hget⟩ |
        ⟨⟨k, hk, hbad⟩, w, herr⟩
      · rw [hok] at h
        injection h with h2
        subst h2
        obtain ⟨hcode, -⟩ := ops_code hops
        refine ⟨hcode, rfl, hlen, ?_⟩
        intro k hk
        rw [cast_tdiv100, digit_cast]
        exact hget k hk
      · rw [herr] at h
        exact Except.noConfusion h
  · constructor
    · rintro ⟨w, h⟩
      cases hops : ops (inp.tmod 100) with
      | none =>
        simp only [parseInstruction, hops] at h
        injection h with h2
        exact GoErr.noConfusion h2
      | some o =>
        obtain ⟨n, rfl⟩ := parse_pos_nat hops
        refine ⟨o, rfl, ?_⟩
        simp only [parseInstruction, hops] at h
        rw [cast_tdiv100] at h
        rcases parseModes_spec o.pc (n / 100) with ⟨hall, ms, hok, hlen, hget⟩ |
          ⟨⟨k, hk, hbad⟩, w2, herr⟩
        · rw [hok] at h
          exact Except.noConfusion h
        · exact ⟨k, hk, by rw [cast_tdiv100, digit_cast]; exact hbad⟩
    · rintro ⟨o, hops, k, hk, hbad⟩
      obtain ⟨n, rfl⟩ := parse_pos_nat hops
      rw [cast_tdiv100, digit_cast] at hbad
      rcases parseModes_spec o.pc (n / 100) with ⟨hall, ms, hok, hlen, hget⟩ |
        ⟨⟨k2, hk2, hbad2⟩, w2, herr⟩
      · exact absurd hbad (hall k hk)
      · refine ⟨w2, ?_⟩
        simp only [parseInstruction, hops]
        rw [cast_tdiv100, herr]
        rfl

/-- The mult opcode descriptor. -/
def opMult : Op := { name := "mult", code := 2, pc := 3 }

/-- The decoded form of the raw word 21002: mult with modes position,
immediate, relative (digits 0, 1, 2 of the quotient 210). -/
def insMult21002 : Instruction :=
  { op := opMult, pmodes := [Pmode.position, Pmode.immediate, Pmode.relative] }

/-- C2 applied concretely: 50 is an unknown opcode; 21002 decodes to mult
with the mode of its third parameter given by the third mode digit. -/
theorem C2_witness :
    parseInstruction 50 = Except.error (GoErr.unknownOpcode 50 50)
  ∧ parseInstruction 21002 = Except.ok insMult21002
  ∧ insMult21002.pmodes.get? 2 =
      modeOfDigit ((((21002 : Int).tdiv 100).tdiv ((10 : Int) ^ 2)).tmod 10) :=
  ⟨rfl, rfl, ((C2_decoder 21002).2.2.1 insMult21002 rfl).2.2.2 2 (by decide)⟩

/-! ### Claim C4: PC-advance discipline vs naive advance -/

/-- Observable outcome of a run, without the machine state: used to compare
the engine against the naive semantics. -/
inductive Obs
  | ok
  | err (e : GoErr)
  | panicked
  | outOfFuel
deriving DecidableEq, Repr

/-- Decode the word at an explicit position `p`: the common fetch/decode core
of both the engine's and the naive discipline (clear the jump flag, decode,
move one past the opcode word). -/
def decodeAt (v : VM) (p : Int) : StepRes :=
  match idx? v.mem p with
  | none => .panicked
  | some w =>
    match parseInstruction w with
    | .error e => .failed e { v with pos := p, jumped := false }
    | .ok i => .ok { v with pos := p + 1, ins := i, jumped := false }

/-- The position at which the engine will decode next: the stored position
plus the pending automatic advance (previous instruction's parameter count,
unless it was the zero instruction or it jumped). -/
def effPos (v : VM) : Int :=
  if 0 < v.ins.op.code ∧ v.jumped = false then v.pos + (v.ins.op.pc : Int) else v.pos

/-- The engine's instruction trace: the loop of `run`, recording each decoded
instruction, with outcomes abstracted to `Obs`. -/
def runTraceA : Nat → VM → List Instruction × Obs
  | 0, _ => ([], Obs.outOfFuel)
  | Nat.succ n, v =>
    if v.pos ≤ (v.mem.length : Int) then
      match v.stepInstruction with
      | .panicked => ([], Obs.panicked)
      | .failed e _ => ([], Obs.err e)
      | .ok v1 =>
        match execOp v1 with
        | .panicked => ([v1.ins], Obs.panicked)
        | .failed e _ => ([v1.ins], Obs.err e)
        | .halted _ => ([v1.ins], Obs.ok)
        | .cont v2 =>
          let r := runTraceA n v2
          (v1.ins :: r.1, r.2)
    else ([], Obs.panicked)

/-- Modelled from the spec's naive semantics: advance the position by the
full instruction length immediately after executing each non-jumping
instruction (one step past the opcode at decode, parameter count right after
the effect), so the stored position always points at the next opcode. -/
def naiveAdvance (v : VM) : VM :=
  if v.jumped then { v with jumped := false }
  else { v with pos := v.pos + (v.ins.op.pc : Int) }

/-- Modelled from the spec's naive semantics: the naive run loop — decode at
the stored position, execute, then advance immediately — recording the same
instruction trace and observable outcome as `runTraceA` does for the
engine. -/
def runTraceN : Nat → VM → List Instruction × Obs
  | 0, _ => ([], Obs.outOfFuel)
  | Nat.succ n, v =>
    if v.pos ≤ (v.mem.length : Int) then
      match decodeAt v v.pos with
      | .panicked => ([], Obs.panicked)
      | .failed e _ => ([], Obs.err e)
      | .ok v1 =>
        match execOp v1 with
        | .panicked => ([v1.ins], Obs.panicked)
        | .failed e _ => ([v1.ins], Obs.err e)
        | .halted _ => ([v1.ins], Obs.ok)
        | .cont v2 =>
          let r := runTraceN n (naiveAdvance v2)
          (v1.ins :: r.1, r.2)
    else ([], Obs.panicked)

/-- The outcome classification of a `run` result. -/
def RunRes.obs : RunRes → Obs
  | .ok _ => Obs.ok
  | .err e _ => Obs.err e
  | .panicked => Obs.panicked
  | .outOfFuel _ => Obs.outOfFuel

lemma effPos_ge (v : VM) : v.pos ≤ effPos v := by
  unfold effPos
  split_ifs
  · omega
  · omega

lemma idx?_none_big (mem : List Int) (p : Int) (h : (mem.length : Int) < p) :
    idx? mem p = none := by
  unfold idx?
  rw [if_pos (by omega), List.get?_eq_getElem?]
  exact List.getElem?_eq_none (by omega)

lemma stepInstruction_eq_decodeAt (v : VM) :
    v.stepInstruction = decodeAt v (effPos v) := by
  simp only [VM.stepInstruction, decodeAt, effPos]
  split_ifs with h
  · rfl
  · rfl

lemma decodeAt_override (v : VM) (x : Int) (b : Bool) (p : Int) :
    decodeAt { v with pos := x, jumped := b } p = decodeAt v p := by
  unfold decodeAt
  rfl

lemma decodeAt_none (v : VM) (p : Int) (h : (v.mem.length : Int) < p) :
    decodeAt v p = StepRes.panicked := by
  unfold decodeAt
  rw [idx?_none_big v.mem p h]

lemma parse_code_pos {w : Int} {i : Instruction} (h : parseInstruction w = Except.ok i) :
    0 < i.op.code := by
  cases hops : ops (w.tmod 100) with
  | none =>
    simp only [parseInstruction, hops] at h
    exact Except.noConfusion h
  | some o =>
    simp only [parseInstruction, hops] at h
    cases hp : parseModes (w.tdiv 100) o.pc with
    | error e =>
      rw [hp] at h
      exact Except.noConfusion h
    | ok ms =>
      rw [hp] at h
      injection h with h2
      rw [← h2]
      obtain ⟨hc, hpos⟩ := ops_code hops
      show 0 < o.code
      rw [hc]
      exact hpos

lemma decode_ok_code {v : VM} {p : Int} {v1 : VM} (h : decodeAt v p = StepRes.ok v1) :
    0 < v1.ins.op.code := by
  unfold decodeAt at h
  cases hidx : idx? v.mem p with
  | none =>
    simp only [hidx] at h
    exact StepRes.noConfusion h
  | some w =>
    simp only [hidx] at h
    cases hp : parseInstruction w with
    | error e =>
      simp only [hp] at h
      exact StepRes.noConfusion h
    | ok i =>
      simp only [hp] at h
      injection h with h2
      rw [← h2]
      exact parse_code_pos hp

lemma naiveAdvance_eq (v : VM) (h : 0 < v.ins.op.code) :
    naiveAdvance v = { v with pos := effPos v, jumped := false } := by
  cases hj : v.jumped
  · simp [naiveAdvance, effPos, hj, h]
  · simp [naiveAdvance, effPos, hj]

lemma traceAN : ∀ (fuel : Nat) (a : VM),
    runTraceA fuel a = runTraceN fuel { a with pos := effPos a, jumped := false } := by
  intro fuel
  induction fuel with
  | zero =>
    intro a
    rfl
  | succ n ih =>
    intro a
    have hpos : ({ a with pos := effPos a, jumped := false } : VM).pos = effPos a := rfl
    have hmem : ({ a with pos := effPos a, jumped := false } : VM).mem = a.mem := rfl
    simp only [runTraceA, runTraceN, hpos, hmem]
    rw [stepInstruction_eq_decodeAt, decodeAt_override a (effPos a) false (effPos a)]
    by_cases hE : effPos a ≤ (a.mem.length : Int)
    · have ha : a.pos ≤ (a.mem.length : Int) := le_trans (effPos_ge a) hE
      rw [if_pos ha, if_pos hE]
      cases hd : decodeAt a (effPos a) with
      | panicked => rfl
      | failed e v1 => rfl
      | ok v1 =>
        simp only []
        cases hx : execOp v1 with
        | panicked => rfl
        | failed e v2 => rfl
        | halted v2 => rfl
        | cont v2 =>
          simp only []
          have hcode : 0 < v2.ins.op.code := by
            rw [exec_cont_ins hx]
            exact decode_ok_code hd
          rw [ih v2, naiveAdvance_eq v2 hcode]
    · rw [if_neg hE]
      by_cases ha : a.pos ≤ (a.mem.length : Int)
      · rw [if_pos ha, decodeAt_none a (effPos a) (by omega)]
      · rw [if_neg ha]

lemma runTraceA_obs : ∀ (fuel : Nat) (v : VM), (runTraceA fuel v).2 = (run fuel v).obs := by
  intro fuel
  induction fuel with
  | zero =>
    intro v
    rfl
  | succ n ih =>
    intro v
    simp only [runTraceA, run]
    split_ifs with hg
    · cases hs : v.stepInstruction with
      | panicked => rfl
      | failed e v1 => rfl
      | ok v1 =>
        simp only []
        cases hx : execOp v1 with
        | panicked => rfl
        | failed e v2 => rfl
        | halted v2 => rfl
        | cont v2 =>
          simp only []
          exact ih v2
    · rfl

/-- C4: the engine's program-counter discipline (advance by the previous
instruction's parameter count at the start of the next step unless it
jumped, then one past the opcode after decode) is observationally equivalent
to the naive semantics that advances by the full instruction length
immediately after each non-jumping instruction: started on any program, both
disciplines produce the same decoded-instruction trace and the same
outcome. -/
theorem C4_pc_discipline_equivalence (program mem : List Int)
    (input : Option (Nat → Except GoErr Int))
    (output : Option (Nat → Int → Except GoErr Unit)) (fuel : Nat) :
    runTraceA fuel (NewVM program mem input output) =
      runTraceN fuel (NewVM program mem input output) := by
  have h2 : ({ NewVM program mem input output with
      pos := effPos (NewVM program mem input output), jumped := false } : VM) =
      NewVM program mem input output := rfl
  rw [traceAN fuel (NewVM program mem input output), h2]

/-! ### Claim C7: Copy produces an independent VM -/

/-- A heap of int-slice backing buffers: models Go slice aliasing so that the
independence contract of `Copy` is expressible. -/
structure Heap where
  bufs : List (List Int)

/-- Dereference a buffer reference. -/
def Heap.read (h : Heap) (r : Nat) : List Int := (h.bufs.get? r).getD []

/-- Allocate a fresh buffer (Go `make`), returning the new heap and the new
reference. -/
def Heap.alloc (h : Heap) (b : List Int) : Heap × Nat :=
  ({ bufs := h.bufs ++ [b] }, h.bufs.length)

/-- Write one cell of one buffer in place. -/
def Heap.write (h : Heap) (r : Nat) (i : Nat) (x : Int) : Heap :=
  { bufs := h.bufs.set r ((h.read r).set i x) }

/-- The VM with its two slices and its two hook closures as heap/host
references: the reference-level view of the `VM` struct that `Copy`
operates on. -/
structure VMRef where
  programRef : Nat
  memRef : Nat
  pos : Int
  ins : Instruction
  inputRef : Nat
  outputRef : Nat
  jumped : Bool
  relbase : Int
deriving DecidableEq, Repr

/-- `v.Copy()`: make fresh program and memory buffers of the source's
lengths, `copy` the contents element-wise, keep every scalar field and share
the hook references. -/
def copyVM (h : Heap) (v : VMRef) : Heap × VMRef :=
  let pbuf := copySlice (List.replicate (h.read v.programRef).length 0) (h.read v.programRef)
  let mbuf := copySlice (List.replicate (h.read v.memRef).length 0) (h.read v.memRef)
  let ha := h.alloc pbuf
  let hb := ha.1.alloc mbuf
  (hb.1, { v with programRef := ha.2, memRef := hb.2 })

lemma copySlice_fresh (b : List Int) : copySlice (List.replicate b.length 0) b = b := by
  unfold copySlice
  simp

lemma Heap.read_alloc_new (h : Heap) (b : List Int) :
    (h.alloc b).1.read (h.alloc b).2 = b := by
  unfold Heap.alloc Heap.read
  rw [List.get?_eq_getElem?, List.getElem?_append_right (le_refl _)]
  simp

lemma Heap.read_alloc_old (h : Heap) (b : List Int) (r : Nat) (hr : r < h.bufs.length) :
    (h.alloc b).1.read r = h.read r := by
  unfold Heap.alloc Heap.read
  rw [List.get?_eq_getElem?, List.get?_eq_getElem?, List.getElem?_append_left hr]

lemma Heap.read_write_ne (h : Heap) (r1 r2 : Nat) (i : Nat) (x : Int) (hne : r1 ≠ r2) :
    (h.write r1 i x).read r2 = h.read r2 := by
  unfold Heap.write Heap.read
  simp only [List.get?_eq_getElem?]
  rw [List.getElem?_set_ne hne]

/-- C7: `Copy` yields a VM whose program and memory buffers are element-wise
equal to the source's but freshly allocated (different references, so a write
through either VM's memory leaves the other's buffer unchanged), whose
scalar state (position, instruction, jumped flag, relative base) equals the
source's, whose hook references are the very same as the source's, and the
copy leaves the source VM and every existing buffer unchanged. -/
theorem C7_copy_independent (h : Heap) (v : VMRef)
    (hm : v.memRef < h.bufs.length) (hp : v.programRef < h.bufs.length) :
    ((copyVM h v).2.pos = v.pos
      ∧ (copyVM h v).2.ins = v.ins
      ∧ (copyVM h v).2.jumped = v.jumped
      ∧ (copyVM h v).2.relbase = v.relbase)
  ∧ ((copyVM h v).2.inputRef = v.inputRef ∧ (copyVM h v).2.outputRef = v.outputRef)
  ∧ ((copyVM h v).1.read (copyVM h v).2.memRef = h.read v.memRef
      ∧ (copyVM h v).1.read (copyVM h v).2.programRef = h.read v.programRef)
  ∧ ((copyVM h v).2.memRef ≠ v.memRef ∧ (copyVM h v).2.programRef ≠ v.programRef)
  ∧ (∀ r, r < h.bufs.length → (copyVM h v).1.read r = h.read r)
  ∧ (∀ i x, ((copyVM h v).1.write (copyVM h v).2.memRef i x).read v.memRef =
        (copyVM h v).1.read v.memRef)
  ∧ (∀ i x, ((copyVM h v).1.write v.memRef i x).read (copyVM h v).2.memRef =
        (copyVM h v).1.read (copyVM h v).2.memRef) := by
  have e2 : (copyVM h v).2 =
      { v with programRef := h.bufs.length, memRef := h.bufs.length + 1 } := by
    simp [copyVM, Heap.alloc]
  have e1 : (copyVM h v).1 =
      ((h.alloc (h.read v.programRef)).1.alloc (h.read v.memRef)).1 := by
    simp [copyVM, copySlice_fresh]
  have hr2 : (copyVM h v).1.read (h.bufs.length + 1) = h.read v.memRef := by
    rw [e1]
    have hn := Heap.read_alloc_new (h.alloc (h.read v.programRef)).1 (h.read v.memRef)
    simpa [Heap.alloc] using hn
  have hr1 : (copyVM h v).1.read h.bufs.length = h.read v.programRef := by
    rw [e1, Heap.read_alloc_old _ _ _ (by simp [Heap.alloc])]
    have hn := Heap.read_alloc_new h (h.read v.programRef)
    simpa [Heap.alloc] using hn
  have hrold : ∀ r, r < h.bufs.length → (copyVM h v).1.read r = h.read r := by
    intro r hr
    rw [e1, Heap.read_alloc_old _ _ _ (by simp [Heap.alloc]; omega),
      Heap.read_alloc_old _ _ _ hr]
  refine ⟨⟨by rw [e2], by rw [e2], by rw [e2], by rw [e2]⟩,
    ⟨by rw [e2], by rw [e2]⟩, ⟨?_, ?_⟩, ⟨?_, ?_⟩, hrold, ?_, ?_⟩
  · rw [e2]
    exact hr2
  · rw [e2]
    exact hr1
  · rw [e2]
    show h.bufs.length + 1 ≠ v.memRef
    omega
  · rw [e2]
    show h.bufs.length ≠ v.programRef
    omega
  · intro i x
    rw [e2]
    exact Heap.read_write_ne _ _ _ _ _ (by show h.bufs.length + 1 ≠ v.memRef; omega)
  · intro i x
    rw [e2]
    exact Heap.read_write_ne _ _ _ _ _
      (by show v.memRef ≠ h.bufs.length + 1; omega)

/-- C7 witness heap: two live buffers. -/
def hC7 : Heap := { bufs := [[1, 2], [3, 4]] }

/-- C7 witness VM: program in buffer 0, memory in buffer 1, hooks 7 and 8. -/
def vC7 : VMRef :=
  { programRef := 0, memRef := 1, pos := 5, ins := zeroInstruction,
    inputRef := 7, outputRef := 8, jumped := false, relbase := 9 }

/-- C7 applied concretely: the copy's memory is a fresh buffer with equal
contents, and a write through it leaves the source's memory unchanged. -/
theorem C7_witness :
    (copyVM hC7 vC7).2.memRef ≠ vC7.memRef
  ∧ (copyVM hC7 vC7).1.read (copyVM hC7 vC7).2.memRef = hC7.read vC7.memRef
  ∧ ((copyVM hC7 vC7).1.write (copyVM hC7 vC7).2.memRef 0 99).read vC7.memRef =
      (copyVM hC7 vC7).1.read vC7.memRef :=
  ⟨(C7_copy_independent hC7 vC7 (by decide) (by decide)).2.2.2.1.1,
   (C7_copy_independent hC7 vC7 (by decide) (by decide)).2.2.1.1,
   (C7_copy_independent hC7 vC7 (by decide) (by decide)).2.2.2.2.2.1 0 99⟩
